import Mathlib

/-!
Shallow embedding of `src/src/lib.rs` of mulark/factorio-benchmark-helper-file.

Modelling conventions:
* Rust `String` is Lean `String`; `PathBuf` is modelled as a `String` holding
  the textual path (Unix separators).
* `BTreeMap<String, V>` is an association list `List (String × V)`; lookups use
  string equality and `insert` is modelled by a sorted insert that replaces the
  value at an equal key, mirroring `BTreeMap::insert`.
* `BTreeSet<T>` is a list kept sorted by the type's `Ord`; `insert` does nothing
  when an element comparing `Equal` is already present, mirroring
  `BTreeSet::insert`.  For `Mod` and `Map` the Rust `Ord` is *derived*, i.e.
  lexicographic over all fields in declaration order, independent of the custom
  `PartialEq` impls.
* The backing file is a `FileContent`: missing, unreadable bytes, bytes that do
  not decode, or a decoded document.  The JSON codec is treated as an external
  collaborator that round-trips documents, so a successful store of document
  `d` yields `FileContent.valid d`.
* A Rust panic (`unwrap` on `None`/`Err`) is modelled by returning `none`.
* The recursive walkers take an explicit fuel argument modelling the call
  stack; `fuel = 0` (returning `none`) marks exhaustion and termination
  theorems show a fuel of (number of distinct meta keys + 1) always suffices.
-/

namespace FBH

/-- `struct Mod` from lib.rs (all four fields; `file_name` is `serde(skip)`
but still part of the in-memory value). -/
structure Mod where
  name : String
  file_name : String
  version : String
  sha1 : String
deriving Repr, DecidableEq

/-- `struct Map` from lib.rs; `path : PathBuf` modelled as a `String`. -/
structure Map where
  name : String
  path : String
  sha256 : String
  download_link : String
deriving Repr, DecidableEq

/-- `impl PartialEq for Mod`: equal iff the `sha1` fields are equal and
non-empty. -/
def modEq (a cmp : Mod) : Bool :=
  if a.sha1 == cmp.sha1 && !(a.sha1.isEmpty) then true else false

/-- `impl PartialEq for Map`: equal iff the `sha256` fields are equal. -/
def mapEq (a cmp : Map) : Bool :=
  if a.sha256 == cmp.sha256 then true else false

/-- The `derive(Ord)` comparison for `Mod`: lexicographic over the fields in
declaration order (name, file_name, version, sha1). -/
def modCmp (a b : Mod) : Ordering :=
  (compare a.name b.name).then ((compare a.file_name b.file_name).then
    ((compare a.version b.version).then (compare a.sha1 b.sha1)))

/-- The `derive(Ord)` comparison for `Map`: lexicographic over the fields in
declaration order (name, path, sha256, download_link). -/
def mapCmp (a b : Map) : Ordering :=
  (compare a.name b.name).then ((compare a.path b.path).then
    ((compare a.sha256 b.sha256).then (compare a.download_link b.download_link)))

/-- `BTreeSet::insert`: ordered insert by `cmp`; when an element comparing
`Equal` is already in the set, the set is left unchanged. -/
def btreeSetInsert {α : Type} (cmp : α → α → Ordering) : List α → α → List α
  | [], a => [a]
  | x :: xs, a =>
    match cmp a x with
    | Ordering.lt => a :: x :: xs
    | Ordering.eq => x :: xs
    | Ordering.gt => x :: btreeSetInsert cmp xs a

/-- `BTreeMap` lookup (`map[&key]` / `contains_key` combined): first value at
an equal key. -/
def lookupA {α : Type} : List (String × α) → String → Option α
  | [], _ => none
  | (k, v) :: rest, key => if k == key then some v else lookupA rest key

/-- `BTreeMap::contains_key`. -/
def containsKey {α : Type} (l : List (String × α)) (key : String) : Bool :=
  (lookupA l key).isSome

/-- `BTreeMap::insert`: sorted insert by key, replacing the value when the key
is already present. -/
def btreeMapInsert {α : Type} : List (String × α) → String → α → List (String × α)
  | [], k, v => [(k, v)]
  | (k2, v2) :: rest, k, v =>
    match compare k k2 with
    | Ordering.lt => (k, v) :: (k2, v2) :: rest
    | Ordering.eq => (k, v) :: rest
    | Ordering.gt => (k2, v2) :: btreeMapInsert rest k v

/-- `struct BenchmarkSet` from lib.rs.  `mods`/`maps` are `BTreeSet`s modelled
as lists sorted by `modCmp`/`mapCmp`; `u32` counters are modelled as `Nat`. -/
structure BenchmarkSet where
  save_subdirectory : Option String
  mods : List Mod
  maps : List Map
  ticks : Nat
  runs : Nat
deriving Repr, DecidableEq

/-- `impl Default for BenchmarkSet`. -/
def BenchmarkSet.default : BenchmarkSet :=
  { save_subdirectory := none, mods := [], maps := [], ticks := 0, runs := 0 }

/-- `struct TopLevel` from lib.rs: the persisted document. -/
structure TopLevel where
  benchmark_sets : List (String × BenchmarkSet)
  meta_sets : List (String × List String)
deriving Repr, DecidableEq

/-- `impl Default for TopLevel` (derived): both mappings empty. -/
def TopLevel.default : TopLevel := { benchmark_sets := [], meta_sets := [] }

/-- `enum ProcedureError` from lib.rs. -/
inductive ProcedureError where
  | ProcedureAlreadyExists
  | FileNotFound
  | MalformedJSON
  | UnknownReadError
deriving Repr, DecidableEq

/-- `enum ProcedureOverwrite` from lib.rs. -/
inductive ProcedureOverwrite where
  | True
  | False
deriving Repr, DecidableEq

/-- `impl From<bool> for ProcedureOverwrite`. -/
def ProcedureOverwrite.ofBool (b : Bool) : ProcedureOverwrite :=
  if b then ProcedureOverwrite.True else ProcedureOverwrite.False

/-- `impl Not for ProcedureOverwrite`. -/
def ProcedureOverwrite.notOv : ProcedureOverwrite → ProcedureOverwrite
  | ProcedureOverwrite.True => ProcedureOverwrite.False
  | ProcedureOverwrite.False => ProcedureOverwrite.True

/-- Observable state of the backing file, as distinguished by
`load_top_level_from_file`: missing, bytes that cannot be read, bytes that do
not decode to a `TopLevel`, or a decoded document. -/
inductive FileContent where
  | missing
  | unreadable
  | malformed
  | valid (doc : TopLevel)
deriving Repr, DecidableEq

/-- `load_top_level_from_file`: `FileNotFound` when the file does not exist,
`UnknownReadError` when the bytes cannot be read, `MalformedJSON` when they do
not decode, otherwise the decoded document. -/
def load_top_level_from_file : FileContent → Except ProcedureError TopLevel
  | FileContent.missing => Except.error ProcedureError.FileNotFound
  | FileContent.unreadable => Except.error ProcedureError.UnknownReadError
  | FileContent.malformed => Except.error ProcedureError.MalformedJSON
  | FileContent.valid doc => Except.ok doc

/-- Split a character list on the path separator. -/
def splitSlash : List Char → List (List Char)
  | [] => [[]]
  | c :: rest =>
    let r := splitSlash rest
    if c = '/' then [] :: r
    else
      match r with
      | [] => [[c]]
      | h :: t => (c :: h) :: t

/-- `Path::file_name` (Unix): split on the separator, drop empty and `.`
components, take the last; `None` when nothing remains or it is `..`. -/
def pathFileName (p : String) : Option String :=
  let comps := (splitSlash p.toList).filter (fun c => c ≠ [] ∧ c ≠ ['.'])
  match comps.getLast? with
  | none => none
  | some c => if c = ['.', '.'] then none else some (String.mk c)

/-- `Map::new`: the name is derived from the path's final component; the
`unwrap` panics (modelled as `none`) when the path has no file name. -/
def Map.new (path : String) (sha256 download_link : String) : Option Map :=
  match pathFileName path with
  | none => none
  | some n =>
    some { name := n, path := path, sha256 := sha256,
           download_link := download_link }

/-- `Mod::new`. -/
def Mod.new (name file_name version hash : String) : Mod :=
  { name := name, file_name := file_name, version := version, sha1 := hash }

/-- `read_benchmark_set_from_file`: `None` when the load fails for any reason
or the name is not a key of `benchmark_sets`. -/
def read_benchmark_set_from_file (name : String) (file : FileContent) :
    Option BenchmarkSet :=
  match load_top_level_from_file file with
  | Except.ok m => lookupA m.benchmark_sets name
  | Except.error _ => none

/-- `read_meta_from_file`: `None` when the load fails for any reason or the
name is not a key of `meta_sets`. -/
def read_meta_from_file (name : String) (file : FileContent) :
    Option (List String) :=
  match load_top_level_from_file file with
  | Except.ok m => lookupA m.meta_sets name
  | Except.error _ => none

/-- `write_benchmark_set_to_file`.  Returns the Rust `Result` together with
the resulting file state; every load failure falls back to the default
(empty) document; a successful store yields `FileContent.valid` of the
updated document. -/
def write_benchmark_set_to_file (set_name : String) (set : BenchmarkSet)
    (overwrite : ProcedureOverwrite) (file : FileContent) :
    Except ProcedureError Unit × FileContent :=
  let top_level :=
    match load_top_level_from_file file with
    | Except.ok m => m
    | Except.error _ => TopLevel.default
  if containsKey top_level.benchmark_sets set_name
      && overwrite == ProcedureOverwrite.ofBool false then
    (Except.error ProcedureError.ProcedureAlreadyExists, file)
  else
    (Except.ok (),
     FileContent.valid
       { top_level with
         benchmark_sets := btreeMapInsert top_level.benchmark_sets set_name set })

/-- `write_meta_to_file`: same shape as `write_benchmark_set_to_file`, scoped
to `meta_sets`. -/
def write_meta_to_file (name : String) (members : List String)
    (force : ProcedureOverwrite) (file : FileContent) :
    Except ProcedureError Unit × FileContent :=
  let top_level :=
    match load_top_level_from_file file with
    | Except.ok m => m
    | Except.error _ => TopLevel.default
  if containsKey top_level.meta_sets name
      && force == ProcedureOverwrite.ofBool false then
    (Except.error ProcedureError.ProcedureAlreadyExists, file)
  else
    (Except.ok (),
     FileContent.valid
       { top_level with
         meta_sets := btreeMapInsert top_level.meta_sets name members })

/-- `HashMap::insert` on the result mapping of the benchmark walker: replace
the value when the key is present, otherwise add the entry. -/
def hashMapInsert (l : List (String × BenchmarkSet)) (k : String)
    (v : BenchmarkSet) : List (String × BenchmarkSet) :=
  if containsKey l k then
    l.map (fun p => if p.1 == k then (k, v) else p)
  else
    l ++ [(k, v)]

/-- One iteration of the `for k in &top_level.meta_sets[&key]` loop body:
propagate fuel exhaustion, otherwise recurse via `w` from the current state. -/
def stepOpt {s : Type} (w : String → s → Option s) (ost : Option s)
    (k : String) : Option s :=
  match ost with
  | none => none
  | some st => w k st

/-- `walk_meta_recursive_for_benchmarks`, with explicit fuel modelling the
call stack.  State is `(seen_keys, current_benchmark_sets)`; `none` models
fuel exhaustion and never occurs with fuel above `unseenMetaCount`. -/
def walk_meta_recursive_for_benchmarks :
    Nat → String → TopLevel → List String → List (String × BenchmarkSet) →
    Option (List String × List (String × BenchmarkSet))
  | 0, _, _, _, _ => none
  | Nat.succ fuel, key, top, seen, cur =>
    if seen.contains key then
      some (seen, cur)
    else
      let afterMeta :=
        match lookupA top.meta_sets key with
        | some members =>
          members.foldl
            (stepOpt (fun k st =>
              walk_meta_recursive_for_benchmarks fuel k top st.1 st.2))
            (some (seen ++ [key], cur))
        | none => some (seen, cur)
      match afterMeta with
      | none => none
      | some st =>
        match lookupA top.benchmark_sets key with
        | some bs => some (st.1, hashMapInsert st.2 key bs)
        | none => some (st.1, st.2)

/-- `walk_meta_recursive_for_metas`, with explicit fuel modelling the call
stack.  State is `(seen_keys, current_meta_sets)`; the key is appended to the
output after the recursion over its members (post-order). -/
def walk_meta_recursive_for_metas :
    Nat → String → TopLevel → List String → List String →
    Option (List String × List String)
  | 0, _, _, _, _ => none
  | Nat.succ fuel, key, top, seen, out =>
    if seen.contains key then
      some (seen, out)
    else
      match lookupA top.meta_sets key with
      | none => some (seen, out)
      | some members =>
        match
          members.foldl
            (stepOpt (fun k st =>
              walk_meta_recursive_for_metas fuel k top st.1 st.2))
            (some (seen ++ [key], out))
        with
        | none => none
        | some st => some (st.1, st.2 ++ [key])

/-- The keys of `meta_sets`. -/
def metaKeys (top : TopLevel) : List String := top.meta_sets.map Prod.fst

/-- The number of distinct meta-set keys not yet in `seen`: the termination
measure of both walkers. -/
def unseenMetaCount (top : TopLevel) (seen : List String) : Nat :=
  ((metaKeys top).dedup.filter (fun k => !(seen.contains k))).length

/-- Fuel that always suffices for a walk started with an empty `seen` list:
the number of distinct meta-set keys plus one. -/
def metaFuel (top : TopLevel) : Nat := (metaKeys top).dedup.length + 1

/-- `get_sets_from_meta`: loads the document (the Rust code `unwrap`s the
load result, so a load failure panics — modelled as `none`) and walks it for
benchmark sets. -/
def get_sets_from_meta (meta_set_key : String) (file : FileContent) :
    Option (List (String × BenchmarkSet)) :=
  match load_top_level_from_file file with
  | Except.error _ => none
  | Except.ok top =>
    match walk_meta_recursive_for_benchmarks (metaFuel top) meta_set_key top
        [] [] with
    | some st => some st.2
    | none => none

/-- `get_metas_from_meta`: propagates the load failure (`?` operator), then
walks the document for meta-set names.  The `Except.ok []` arm is the
unreachable fuel-exhaustion case (`metaFuel` always suffices). -/
def get_metas_from_meta (meta_set_key : String) (file : FileContent) :
    Except ProcedureError (List String) :=
  match load_top_level_from_file file with
  | Except.error e => Except.error e
  | Except.ok top =>
    match walk_meta_recursive_for_metas (metaFuel top) meta_set_key top [] []
    with
    | some st => Except.ok st.2
    | none => Except.ok []

/-! Termination of the walkers: the measure `unseenMetaCount` (distinct meta
keys not yet seen) strictly decreases whenever a key is pushed onto
`seen_keys`, so a fuel of `metaFuel` always suffices. -/

theorem lookupA_some_mem_keys {α : Type} {l : List (String × α)} {key : String}
    {v : α} (h : lookupA l key = some v) : key ∈ l.map Prod.fst := by
  induction l with
  | nil => simp [lookupA] at h
  | cons p rest ih =>
    obtain ⟨k, w⟩ := p
    simp only [lookupA] at h
    by_cases hk : (k == key) = true
    · simp only [List.map_cons, List.mem_cons]
      exact Or.inl (eq_of_beq hk).symm
    · rw [if_neg hk] at h
      simp only [List.map_cons, List.mem_cons]
      exact Or.inr (ih h)

theorem unseenMetaCount_le_of_subset (top : TopLevel) {s1 s2 : List String}
    (h : ∀ k, k ∈ s1 → k ∈ s2) :
    unseenMetaCount top s2 ≤ unseenMetaCount top s1 := by
  unfold unseenMetaCount
  apply List.Sublist.length_le
  apply List.monotone_filter_right
  intro a ha
  simp only [Bool.not_eq_true'] at ha ⊢
  simp only [List.elem_eq_mem, decide_eq_false_iff_not] at ha ⊢
  exact fun hin => ha (h a hin)

theorem unseenMetaCount_append_lt (top : TopLevel) {seen : List String}
    {key : String} (hk : key ∈ metaKeys top) (hn : key ∉ seen) :
    unseenMetaCount top (seen ++ [key]) < unseenMetaCount top seen := by
  unfold unseenMetaCount
  have hsub :
      List.Sublist
        ((metaKeys top).dedup.filter (fun k => !((seen ++ [key]).contains k)))
        ((metaKeys top).dedup.filter (fun k => !(seen.contains k))) := by
    apply List.monotone_filter_right
    intro a ha
    simp only [Bool.not_eq_true'] at ha ⊢
    simp only [List.elem_eq_mem, decide_eq_false_iff_not,
      List.mem_append] at ha ⊢
    exact fun hin => ha (Or.inl hin)
  refine Nat.lt_of_le_of_ne hsub.length_le ?_
  intro heq
  have heqlist := hsub.eq_of_length heq
  have hmem : key ∈ (metaKeys top).dedup.filter (fun k => !(seen.contains k)) := by
    simp only [List.mem_filter, List.mem_dedup, Bool.not_eq_true',
      List.elem_eq_mem, decide_eq_false_iff_not]
    exact ⟨hk, hn⟩
  rw [← heqlist] at hmem
  simp only [List.mem_filter, Bool.not_eq_true', List.elem_eq_mem,
    decide_eq_false_iff_not, List.mem_append, List.mem_singleton] at hmem
  exact hmem.2 (Or.inr trivial)

theorem walkMetas_total (top : TopLevel) :
    ∀ (fuel : Nat) (key : String) (seen out : List String),
    unseenMetaCount top seen < fuel →
    ∃ st, walk_meta_recursive_for_metas fuel key top seen out = some st ∧
      (∀ k, k ∈ seen → k ∈ st.1) ∧
      (∀ k, k ∈ st.1 → k ∈ seen ∨ k ∈ metaKeys top) := by
  intro fuel
  induction fuel with
  | zero => intro key seen out h; omega
  | succ fuel ih =>
    intro key seen out h
    by_cases hseen : seen.contains key = true
    · refine ⟨(seen, out), ?_, fun _ hk => hk, fun _ hk => Or.inl hk⟩
      simp only [walk_meta_recursive_for_metas]
      rw [if_pos hseen]
    · have hkey_notmem : key ∉ seen := by
        simp only [List.elem_eq_mem, decide_eq_true_eq] at hseen
        exact hseen
      cases hm : lookupA top.meta_sets key with
      | none =>
        refine ⟨(seen, out), ?_, fun _ hk => hk, fun _ hk => Or.inl hk⟩
        simp only [walk_meta_recursive_for_metas]
        rw [if_neg hseen]
        simp only [hm]
      | some members =>
        have hkmeta : key ∈ metaKeys top := lookupA_some_mem_keys hm
        have hlt : unseenMetaCount top (seen ++ [key]) < fuel := by
          have := unseenMetaCount_append_lt top hkmeta hkey_notmem
          omega
        -- the for-loop over the members, from any state reachable there
        have fold :
            ∀ (ms : List String) (s : List String × List String),
            unseenMetaCount top s.1 < fuel →
            ∃ st,
              ms.foldl
                (stepOpt (fun k st2 =>
                  walk_meta_recursive_for_metas fuel k top st2.1 st2.2))
                (some s) = some st ∧
              (∀ k, k ∈ s.1 → k ∈ st.1) ∧
              (∀ k, k ∈ st.1 → k ∈ s.1 ∨ k ∈ metaKeys top) := by
          intro ms
          induction ms with
          | nil =>
            intro s hs
            exact ⟨s, rfl, fun _ hk => hk, fun _ hk => Or.inl hk⟩
          | cons a as ihm =>
            intro s hs
            obtain ⟨st1, he1, hg1, hb1⟩ := ih a s.1 s.2 hs
            have hle : unseenMetaCount top st1.1 ≤ unseenMetaCount top s.1 :=
              unseenMetaCount_le_of_subset top hg1
            obtain ⟨st2, he2, hg2, hb2⟩ := ihm st1 (lt_of_le_of_lt hle hs)
            refine ⟨st2, ?_, fun k hk => hg2 k (hg1 k hk), fun k hk => ?_⟩
            · rw [List.foldl_cons]
              have hstep :
                  List.foldl
                    (stepOpt (fun k st2 =>
                      walk_meta_recursive_for_metas fuel k top st2.1 st2.2))
                    (walk_meta_recursive_for_metas fuel a top s.1 s.2) as =
                  some st2 := by
                rw [he1]
                exact he2
              exact hstep
            · rcases hb2 k hk with hk1 | hk2
              · exact hb1 k hk1
              · exact Or.inr hk2
        obtain ⟨st, he, hg, hb⟩ := fold members (seen ++ [key], out) hlt
        refine ⟨(st.1, st.2 ++ [key]), ?_, ?_, ?_⟩
        · simp only [walk_meta_recursive_for_metas]
          rw [if_neg hseen]
          simp only [hm, he]
        · intro k hk
          exact hg k (List.mem_append_left _ hk)
        · intro k hk
          rcases hb k hk with hk1 | hk2
          · rcases List.mem_append.mp hk1 with hk3 | hk3
            · exact Or.inl hk3
            · rw [List.mem_singleton] at hk3
              subst hk3
              exact Or.inr hkmeta
          · exact Or.inr hk2

theorem walkBench_total (top : TopLevel) :
    ∀ (fuel : Nat) (key : String) (seen : List String)
      (cur : List (String × BenchmarkSet)),
    unseenMetaCount top seen < fuel →
    ∃ st, walk_meta_recursive_for_benchmarks fuel key top seen cur = some st ∧
      (∀ k, k ∈ seen → k ∈ st.1) ∧
      (∀ k, k ∈ st.1 → k ∈ seen ∨ k ∈ metaKeys top) := by
  intro fuel
  induction fuel with
  | zero => intro key seen cur h; omega
  | succ fuel ih =>
    intro key seen cur h
    by_cases hseen : seen.contains key = true
    · refine ⟨(seen, cur), ?_, fun _ hk => hk, fun _ hk => Or.inl hk⟩
      simp only [walk_meta_recursive_for_benchmarks]
      rw [if_pos hseen]
    · have hkey_notmem : key ∉ seen := by
        simp only [List.elem_eq_mem, decide_eq_true_eq] at hseen
        exact hseen
      cases hm : lookupA top.meta_sets key with
      | none =>
        cases hbs : lookupA top.benchmark_sets key with
        | none =>
          refine ⟨(seen, cur), ?_, fun _ hk => hk, fun _ hk => Or.inl hk⟩
          simp only [walk_meta_recursive_for_benchmarks]
          rw [if_neg hseen]
          simp only [hm, hbs]
        | some bs =>
          refine ⟨(seen, hashMapInsert cur key bs), ?_, fun _ hk => hk,
            fun _ hk => Or.inl hk⟩
          simp only [walk_meta_recursive_for_benchmarks]
          rw [if_neg hseen]
          simp only [hm, hbs]
      | some members =>
        have hkmeta : key ∈ metaKeys top := lookupA_some_mem_keys hm
        have hlt : unseenMetaCount top (seen ++ [key]) < fuel := by
          have := unseenMetaCount_append_lt top hkmeta hkey_notmem
          omega
        have fold :
            ∀ (ms : List String)
              (s : List String × List (String × BenchmarkSet)),
            unseenMetaCount top s.1 < fuel →
            ∃ st,
              ms.foldl
                (stepOpt (fun k st2 =>
                  walk_meta_recursive_for_benchmarks fuel k top st2.1 st2.2))
                (some s) = some st ∧
              (∀ k, k ∈ s.1 → k ∈ st.1) ∧
              (∀ k, k ∈ st.1 → k ∈ s.1 ∨ k ∈ metaKeys top) := by
          intro ms
          induction ms with
          | nil =>
            intro s hs
            exact ⟨s, rfl, fun _ hk => hk, fun _ hk => Or.inl hk⟩
          | cons a as ihm =>
            intro s hs
            obtain ⟨st1, he1, hg1, hb1⟩ := ih a s.1 s.2 hs
            have hle : unseenMetaCount top st1.1 ≤ unseenMetaCount top s.1 :=
              unseenMetaCount_le_of_subset top hg1
            obtain ⟨st2, he2, hg2, hb2⟩ := ihm st1 (lt_of_le_of_lt hle hs)
            refine ⟨st2, ?_, fun k hk => hg2 k (hg1 k hk), fun k hk => ?_⟩
            · rw [List.foldl_cons]
              have hstep :
                  List.foldl
                    (stepOpt (fun k st2 =>
                      walk_meta_recursive_for_benchmarks fuel k top st2.1
                        st2.2))
                    (walk_meta_recursive_for_benchmarks fuel a top s.1 s.2)
                    as = some st2 := by
                rw [he1]
                exact he2
              exact hstep
            · rcases hb2 k hk with hk1 | hk2
              · exact hb1 k hk1
              · exact Or.inr hk2
        obtain ⟨st, he, hg, hb⟩ := fold members (seen ++ [key], cur) hlt
        have hgrow : ∀ k, k ∈ seen → k ∈ st.1 := by
          intro k hk
          exact hg k (List.mem_append_left _ hk)
        have hbound : ∀ k, k ∈ st.1 → k ∈ seen ∨ k ∈ metaKeys top := by
          intro k hk
          rcases hb k hk with hk1 | hk2
          · rcases List.mem_append.mp hk1 with hk3 | hk3
            · exact Or.inl hk3
            · rw [List.mem_singleton] at hk3
              subst hk3
              exact Or.inr hkmeta
          · exact Or.inr hk2
        cases hbs : lookupA top.benchmark_sets key with
        | none =>
          refine ⟨(st.1, st.2), ?_, hgrow, hbound⟩
          simp only [walk_meta_recursive_for_benchmarks]
          rw [if_neg hseen]
          simp only [hm, he, hbs]
        | some bs =>
          refine ⟨(st.1, hashMapInsert st.2 key bs), ?_, hgrow, hbound⟩
          simp only [walk_meta_recursive_for_benchmarks]
          rw [if_neg hseen]
          simp only [hm, he, hbs]

/-! Facts about the derived orderings. -/

theorem strCompare_eq_iff (a b : String) : compare a b = Ordering.eq ↔ a = b := by
  simp only [compare, compareOfLessAndEq]
  split_ifs with h1 h2
  · constructor
    · intro h
      cases h
    · intro h
      subst h
      exact absurd h1 (String.lt_irrefl a)
  · simp [h2]
  · simp [h2]

theorem orderingThen_eq_iff (o p : Ordering) :
    o.then p = Ordering.eq ↔ (o = Ordering.eq ∧ p = Ordering.eq) := by
  cases o <;> simp [Ordering.then]

theorem modCmp_eq_iff (a b : Mod) : modCmp a b = Ordering.eq ↔ a = b := by
  cases a
  cases b
  simp only [modCmp, orderingThen_eq_iff, strCompare_eq_iff, Mod.mk.injEq]

theorem mapCmp_eq_iff (a b : Map) : mapCmp a b = Ordering.eq ↔ a = b := by
  cases a
  cases b
  simp only [mapCmp, orderingThen_eq_iff, strCompare_eq_iff, Map.mk.injEq]

/-- C4: for all `Mod` values `m1`, `m2`, `m1 == m2` holds iff their `sha1`
fields are equal and that `sha1` is non-empty; two empty-`sha1` mods are
unequal even with all other fields equal, and equal non-empty `sha1` gives
equality regardless of the other fields. -/
theorem C4_mod_equality_contract (m1 m2 : Mod) :
    (modEq m1 m2 = true ↔ (m1.sha1 = m2.sha1 ∧ m1.sha1 ≠ "")) ∧
    (m1.sha1 = "" → m2.sha1 = "" → modEq m1 m2 = false) ∧
    (m1.sha1 = m2.sha1 → m1.sha1 ≠ "" → modEq m1 m2 = true) := by
  have hiff : modEq m1 m2 = true ↔ (m1.sha1 = m2.sha1 ∧ m1.sha1 ≠ "") := by
    simp only [modEq, Bool.and_eq_true, beq_iff_eq, Bool.not_eq_true']
    constructor
    · intro h
      split_ifs at h with hc
      · refine ⟨hc.1, fun habs => ?_⟩
        have h2 := hc.2
        rw [habs] at h2
        exact absurd h2 (by decide)
    · intro hh
      have hemp : m1.sha1.isEmpty = false := by
        rw [← Bool.not_eq_true]
        intro habs
        exact hh.2 ((String.isEmpty_iff m1.sha1).mp habs)
      rw [if_pos ⟨hh.1, hemp⟩]
  refine ⟨hiff, ?_, ?_⟩
  · intro h1 _
    cases hmod : modEq m1 m2 with
    | false => rfl
    | true => exact absurd (hiff.mp hmod).2 (by simp [h1])
  · intro he hne
    exact hiff.mpr ⟨he, hne⟩

theorem C4_witness :
    modEq (Mod.new "a" "fa" "1" "h") (Mod.new "b" "fb" "2" "h") = true ∧
    modEq (Mod.new "a" "fa" "1" "") (Mod.new "a" "fa" "1" "") = false :=
  ⟨(C4_mod_equality_contract (Mod.new "a" "fa" "1" "h")
      (Mod.new "b" "fb" "2" "h")).2.2 rfl (by decide),
   (C4_mod_equality_contract (Mod.new "a" "fa" "1" "")
      (Mod.new "a" "fa" "1" "")).2.1 rfl rfl⟩

/-- C5: for all `Map` values `m1`, `m2`, `m1 == m2` holds iff their `sha256`
fields are equal, with no non-emptiness requirement: two maps with empty
`sha256` are equal regardless of the other fields. -/
theorem C5_map_equality_contract (m1 m2 : Map) (n1 p1 d1 n2 p2 d2 : String) :
    (mapEq m1 m2 = true ↔ m1.sha256 = m2.sha256) ∧
    mapEq { name := n1, path := p1, sha256 := "", download_link := d1 }
      { name := n2, path := p2, sha256 := "", download_link := d2 } = true := by
  constructor
  · simp [mapEq]
  · simp [mapEq]

/-- C9: a `Mod` with empty `sha1` is not equal to itself, so the custom
equality is not reflexive there, while for non-empty `sha1` it is. -/
theorem C9_mod_eq_irreflexive_on_empty_sha1 (m : Mod) :
    (m.sha1 = "" → modEq m m = false) ∧
    (m.sha1 ≠ "" → modEq m m = true) := by
  constructor
  · intro h
    simp [modEq, h, String.isEmpty]
  · intro h
    have hemp : m.sha1.isEmpty = false := by
      rw [← Bool.not_eq_true]
      intro habs
      exact h ((String.isEmpty_iff m.sha1).mp habs)
    simp [modEq, hemp]

theorem C9_witness :
    modEq (Mod.new "a" "f" "1" "") (Mod.new "a" "f" "1" "") = false ∧
    modEq (Mod.new "a" "f" "1" "h") (Mod.new "a" "f" "1" "h") = true :=
  ⟨(C9_mod_eq_irreflexive_on_empty_sha1 (Mod.new "a" "f" "1" "")).1 rfl,
   (C9_mod_eq_irreflexive_on_empty_sha1 (Mod.new "a" "f" "1" "h")).2
     (by decide)⟩

/-- C3 fails on the code: the `mods`/`maps` `BTreeSet`s deduplicate by the
derived lexicographic `Ord` over all fields, not by the custom `PartialEq`;
here two `Mod`s equal under the equality contract (same non-empty sha1) and
two `Map`s with equal sha256 both stay as two distinct entries. -/
theorem C3_counterexample :
    modEq (Mod.new "modA" "f" "1" "hash") (Mod.new "modB" "f" "1" "hash")
        = true ∧
    btreeSetInsert modCmp
        (btreeSetInsert modCmp [] (Mod.new "modA" "f" "1" "hash"))
        (Mod.new "modB" "f" "1" "hash") =
      [Mod.new "modA" "f" "1" "hash", Mod.new "modB" "f" "1" "hash"] ∧
    mapEq { name := "x", path := "p", sha256 := "s", download_link := "d" }
        { name := "y", path := "p", sha256 := "s", download_link := "d" }
        = true ∧
    btreeSetInsert mapCmp
        (btreeSetInsert mapCmp []
          { name := "x", path := "p", sha256 := "s", download_link := "d" })
        { name := "y", path := "p", sha256 := "s", download_link := "d" } =
      [{ name := "x", path := "p", sha256 := "s", download_link := "d" },
       { name := "y", path := "p", sha256 := "s", download_link := "d" }] := by
  decide

/-- C3 (amended): the `mods` and `maps` sets deduplicate by the derived
lexicographic ordering over the full field tuple: a value already present in
all fields collapses, while two values that differ in any field remain two
entries, even when they are equal under the `Mod`/`Map` equality contract. -/
theorem C3_sets_dedup_by_derived_order (m1 m2 : Mod) (p1 p2 : Map) :
    btreeSetInsert modCmp [m1] m1 = [m1] ∧
    (m1 ≠ m2 → (btreeSetInsert modCmp [m1] m2).length = 2) ∧
    btreeSetInsert mapCmp [p1] p1 = [p1] ∧
    (p1 ≠ p2 → (btreeSetInsert mapCmp [p1] p2).length = 2) := by
  refine ⟨?_, ?_, ?_, ?_⟩
  · have h : modCmp m1 m1 = Ordering.eq := (modCmp_eq_iff m1 m1).mpr rfl
    simp [btreeSetInsert, h]
  · intro hne
    cases hc : modCmp m2 m1 with
    | lt => simp [btreeSetInsert, hc]
    | eq => exact absurd ((modCmp_eq_iff m2 m1).mp hc) (Ne.symm hne)
    | gt => simp [btreeSetInsert, hc]
  · have h : mapCmp p1 p1 = Ordering.eq := (mapCmp_eq_iff p1 p1).mpr rfl
    simp [btreeSetInsert, h]
  · intro hne
    cases hc : mapCmp p2 p1 with
    | lt => simp [btreeSetInsert, hc]
    | eq => exact absurd ((mapCmp_eq_iff p2 p1).mp hc) (Ne.symm hne)
    | gt => simp [btreeSetInsert, hc]

theorem C3_witness :
    btreeSetInsert modCmp [Mod.new "a" "f" "1" "h"] (Mod.new "a" "f" "1" "h")
        = [Mod.new "a" "f" "1" "h"] ∧
    (btreeSetInsert modCmp [Mod.new "a" "f" "1" "h"]
        (Mod.new "b" "f" "1" "h")).length = 2 ∧
    (btreeSetInsert mapCmp
        [{ name := "x", path := "p", sha256 := "s", download_link := "d" }]
        { name := "y", path := "p", sha256 := "s", download_link := "d" }).length
      = 2 := by
  have h := C3_sets_dedup_by_derived_order (Mod.new "a" "f" "1" "h")
    (Mod.new "b" "f" "1" "h")
    { name := "x", path := "p", sha256 := "s", download_link := "d" }
    { name := "y", path := "p", sha256 := "s", download_link := "d" }
  exact ⟨h.1, h.2.1 (by decide), h.2.2.2 (by decide)⟩

/-- C10: `Map::new` derives the name from the path's final component and
panics (modelled `none`) when there is none, e.g. on `"/"` or a path ending
in `".."`; when the path has a final component the returned map's name is
that component. -/
theorem C10_map_new_name_from_path (path s d : String) :
    (pathFileName path = none → Map.new path s d = none) ∧
    (∀ n, pathFileName path = some n →
      Map.new path s d =
        some { name := n, path := path, sha256 := s, download_link := d }) ∧
    Map.new "/" s d = none ∧
    Map.new "x/.." s d = none ∧
    (Map.new "maps/foo.zip" s d).map Map.name = some "foo.zip" := by
  refine ⟨?_, ?_, rfl, rfl, rfl⟩
  · intro h
    simp [Map.new, h]
  · intro n h
    simp [Map.new, h]

theorem C10_witness :
    Map.new "/" "sha" "link" = none ∧
    Map.new "maps/foo.zip" "sha" "link" =
      some { name := "foo.zip", path := "maps/foo.zip", sha256 := "sha",
             download_link := "link" } :=
  ⟨(C10_map_new_name_from_path "/" "sha" "link").1 rfl,
   (C10_map_new_name_from_path "maps/foo.zip" "sha" "link").2.1 "foo.zip" rfl⟩

/-- C1: both resolver walks terminate on every finite document, including
cyclic meta-set membership graphs: the visited-guard bounds the recursion by
the number of distinct meta-set keys, so fuel `metaFuel` (that number plus
one) is never exhausted. -/
theorem C1_resolvers_terminate (top : TopLevel) (key : String) :
    (walk_meta_recursive_for_metas (metaFuel top) key top [] []).isSome
      = true ∧
    (walk_meta_recursive_for_benchmarks (metaFuel top) key top [] []).isSome
      = true := by
  have h : unseenMetaCount top [] < metaFuel top :=
    Nat.lt_succ_of_le (List.length_filter_le _ _)
  constructor
  · obtain ⟨st, he, -, -⟩ := walkMetas_total top (metaFuel top) key [] [] h
    rw [he]
    rfl
  · obtain ⟨st, he, -, -⟩ := walkBench_total top (metaFuel top) key [] [] h
    rw [he]
    rfl

/-- The document of the cycle-safety example: meta_sets
`{"a": ["b"], "b": ["a"]}`, no benchmark sets. -/
def cyclicDoc : TopLevel :=
  { benchmark_sets := [], meta_sets := [("a", ["b"]), ("b", ["a"])] }

/-- C2: on the cyclic document, resolving meta names from `"a"` terminates
with exactly `["b", "a"]` (post-order, each name once), and resolving
benchmark sets from `"a"` terminates with an empty mapping. -/
theorem C2_cycle_example :
    get_metas_from_meta "a" (FileContent.valid cyclicDoc) =
      Except.ok ["b", "a"] ∧
    get_sets_from_meta "a" (FileContent.valid cyclicDoc) = some [] := by
  constructor
  · rfl
  · rfl

/-- C6: when the name is already a key of the relevant mapping and overwrite
is false, both writers fail with `ProcedureAlreadyExists`, the file is left
unchanged, and a subsequent read returns the old record. -/
theorem C6_overwrite_guard (doc : TopLevel) (name : String)
    (set : BenchmarkSet) (members : List String) :
    (containsKey doc.benchmark_sets name = true →
      write_benchmark_set_to_file name set ProcedureOverwrite.False
          (FileContent.valid doc) =
        (Except.error ProcedureError.ProcedureAlreadyExists,
          FileContent.valid doc) ∧
      read_benchmark_set_from_file name
          (write_benchmark_set_to_file name set ProcedureOverwrite.False
            (FileContent.valid doc)).2 = lookupA doc.benchmark_sets name) ∧
    (containsKey doc.meta_sets name = true →
      write_meta_to_file name members ProcedureOverwrite.False
          (FileContent.valid doc) =
        (Except.error ProcedureError.ProcedureAlreadyExists,
          FileContent.valid doc) ∧
      read_meta_from_file name
          (write_meta_to_file name members ProcedureOverwrite.False
            (FileContent.valid doc)).2 = lookupA doc.meta_sets name) := by
  constructor
  · intro h
    have hw : write_benchmark_set_to_file name set ProcedureOverwrite.False
        (FileContent.valid doc) =
        (Except.error ProcedureError.ProcedureAlreadyExists,
          FileContent.valid doc) := by
      simp [write_benchmark_set_to_file, load_top_level_from_file, h,
        ProcedureOverwrite.ofBool]
    refine ⟨hw, ?_⟩
    rw [hw]
    rfl
  · intro h
    have hw : write_meta_to_file name members ProcedureOverwrite.False
        (FileContent.valid doc) =
        (Except.error ProcedureError.ProcedureAlreadyExists,
          FileContent.valid doc) := by
      simp [write_meta_to_file, load_top_level_from_file, h,
        ProcedureOverwrite.ofBool]
    refine ⟨hw, ?_⟩
    rw [hw]
    rfl

/-- A document holding a benchmark set named `"x"` and a meta set named
`"m"`, used to witness the overwrite guard. -/
def guardDoc : TopLevel :=
  { benchmark_sets := [("x", BenchmarkSet.default)],
    meta_sets := [("m", ["x"])] }

theorem C6_witness :
    write_benchmark_set_to_file "x" BenchmarkSet.default
        ProcedureOverwrite.False (FileContent.valid guardDoc) =
      (Except.error ProcedureError.ProcedureAlreadyExists,
        FileContent.valid guardDoc) ∧
    write_meta_to_file "m" [] ProcedureOverwrite.False
        (FileContent.valid guardDoc) =
      (Except.error ProcedureError.ProcedureAlreadyExists,
        FileContent.valid guardDoc) :=
  ⟨((C6_overwrite_guard guardDoc "x" BenchmarkSet.default []).1
      (by decide)).1,
   ((C6_overwrite_guard guardDoc "m" BenchmarkSet.default []).2
      (by decide)).1⟩

/-- C7 fails on the code: both writers treat every load failure — including
`MalformedJSON`, i.e. bytes present but undecodable — as an empty starting
document; here a write against a malformed file silently proceeds from the
empty document and succeeds. -/
theorem C7_counterexample :
    write_benchmark_set_to_file "n" BenchmarkSet.default
        ProcedureOverwrite.False FileContent.malformed =
      (Except.ok (), FileContent.valid
        { benchmark_sets := [("n", BenchmarkSet.default)],
          meta_sets := [] }) := by
  rfl

/-- C7 (amended): on the write paths every load failure, malformed content
included, is treated as an empty starting document; the write then proceeds
from the default document. -/
theorem C7_load_failure_starts_empty (name : String) (set : BenchmarkSet)
    (members : List String) (ow : ProcedureOverwrite) (file : FileContent)
    (e : ProcedureError)
    (h : load_top_level_from_file file = Except.error e) :
    write_benchmark_set_to_file name set ow file =
      (Except.ok (), FileContent.valid
        { benchmark_sets := [(name, set)], meta_sets := [] }) ∧
    write_meta_to_file name members ow file =
      (Except.ok (), FileContent.valid
        { benchmark_sets := [], meta_sets := [(name, members)] }) := by
  constructor
  · simp [write_benchmark_set_to_file, h, TopLevel.default, containsKey,
      lookupA, btreeMapInsert]
  · simp [write_meta_to_file, h, TopLevel.default, containsKey, lookupA,
      btreeMapInsert]

theorem C7_witness :
    write_benchmark_set_to_file "n" BenchmarkSet.default
        ProcedureOverwrite.True FileContent.missing =
      (Except.ok (), FileContent.valid
        { benchmark_sets := [("n", BenchmarkSet.default)],
          meta_sets := [] }) :=
  (C7_load_failure_starts_empty "n" BenchmarkSet.default []
    ProcedureOverwrite.True FileContent.missing ProcedureError.FileNotFound
    rfl).1

/-- C8 fails on the code: `get_sets_from_meta` `unwrap`s the load result, so
a load failure is fatal there too (a panic, modelled as `none`), not only on
`get_metas_from_meta`. -/
theorem C8_counterexample :
    get_sets_from_meta "a" FileContent.missing = none := rfl

/-- C8 (amended): a load failure is fatal on both resolution paths —
`get_metas_from_meta` propagates the failure kind and `get_sets_from_meta`
panics (modelled `none`) — while the simple reads collapse it to absent; on
a successful load both resolutions succeed. -/
theorem C8_load_failure_fatal_on_both_resolvers (key name : String)
    (file : FileContent) :
    (∀ e, load_top_level_from_file file = Except.error e →
      get_sets_from_meta key file = none ∧
      get_metas_from_meta key file = Except.error e ∧
      read_benchmark_set_from_file name file = none ∧
      read_meta_from_file name file = none) ∧
    (∀ top, load_top_level_from_file file = Except.ok top →
      (∃ sets, get_sets_from_meta key file = some sets) ∧
      (∃ names, get_metas_from_meta key file = Except.ok names)) := by
  constructor
  · intro e he
    refine ⟨?_, ?_, ?_, ?_⟩ <;>
      simp [get_sets_from_meta, get_metas_from_meta,
        read_benchmark_set_from_file, read_meta_from_file, he]
  · intro top htop
    have h : unseenMetaCount top [] < metaFuel top :=
      Nat.lt_succ_of_le (List.length_filter_le _ _)
    constructor
    · obtain ⟨st, hw, -, -⟩ := walkBench_total top (metaFuel top) key [] [] h
      exact ⟨st.2, by simp [get_sets_from_meta, htop, hw]⟩
    · obtain ⟨st, hw, -, -⟩ := walkMetas_total top (metaFuel top) key [] [] h
      exact ⟨st.2, by simp [get_metas_from_meta, htop, hw]⟩

theorem C8_witness :
    (get_sets_from_meta "a" FileContent.unreadable = none ∧
     get_metas_from_meta "a" FileContent.unreadable =
       Except.error ProcedureError.UnknownReadError ∧
     read_benchmark_set_from_file "a" FileContent.unreadable = none ∧
     read_meta_from_file "a" FileContent.unreadable = none) ∧
    (∃ sets, get_sets_from_meta "a" (FileContent.valid TopLevel.default)
       = some sets) ∧
    (∃ names, get_metas_from_meta "a" (FileContent.valid TopLevel.default)
       = Except.ok names) :=
  ⟨(C8_load_failure_fatal_on_both_resolvers "a" "a"
      FileContent.unreadable).1 ProcedureError.UnknownReadError rfl,
   (C8_load_failure_fatal_on_both_resolvers "a" "a"
      (FileContent.valid TopLevel.default)).2 TopLevel.default rfl⟩

end FBH
